import Mathlib

/-!
Verification model of the snmp-trap-alertmanager core: alert identity and
merge (`src/alerts.rs`), label sanitization (`src/sanitize.rs`), enrichment
(`src/enrichment.rs`), the Alertmanager relay alert type
(`src/alertmanager.rs`), and the TTL alert cache (`src/trap_db.rs`).

Rust `BTreeMap<String, String>` is modelled as a key-sorted association
list (`Lmap`): `insert` keeps the list sorted and replaces an equal key,
`erase` drops a key, iteration is list order (= ascending key order, as in
`BTreeMap`). External collaborators are modelled as injected interfaces:
the Tera template engine as a small `Template` type with a fallible
`render`, the `regex` crate as a `Regex` wrapper around a leftmost-match
function, the Postgres data source as explicit fetch/delete outcomes, and
`Instant`/`OffsetDateTime` as integers.
-/

/-- Association-list model of `BTreeMap<String, String>`. -/
def Lmap : Type := List (String × String)

/-- Lexicographic order on strings by character scalar values; this is the
order of Rust's `Ord for String` (UTF-8 byte order coincides with scalar
order), hence `BTreeMap`'s key order. -/
def strLt (a b : String) : Bool :=
  go a.toList b.toList
where
  go : List Char → List Char → Bool
    | _, [] => false
    | [], _ :: _ => true
    | a :: as, b :: bs =>
      if a.toNat < b.toNat then true
      else if a.toNat = b.toNat then go as bs
      else false

namespace Lmap

/-- The empty map (`BTreeMap::new` / `Default::default`). -/
def empty : Lmap := []

/-- Model of `BTreeMap::insert`: sorted insert, replacing an existing equal key. -/
def insert (m : Lmap) (k v : String) : Lmap :=
  match m with
  | [] => [(k, v)]
  | (k', v') :: rest =>
    if strLt k k' then (k, v) :: (k', v') :: rest
    else if k = k' then (k, v) :: rest
    else (k', v') :: insert rest k v

/-- Model of `BTreeMap::get`: first entry with the given key. -/
def find (m : Lmap) (k : String) : Option String :=
  (List.find? (fun p => p.1 = k) m).map (·.2)

/-- Model of `BTreeMap::remove` (drops every entry with the key; a sorted map has
at most one). -/
def erase (m : Lmap) (k : String) : Lmap :=
  List.filter (fun p => p.1 ≠ k) m

/-- Model of `BTreeMap::keys` in iteration (= key) order. -/
def keys (m : Lmap) : List String :=
  List.map (·.1) m

/-- Model of `BTreeMap::contains_key`. -/
def hasKey (m : Lmap) (k : String) : Bool :=
  (find m k).isSome

instance : DecidableEq Lmap := by
  unfold Lmap; infer_instance

end Lmap

/-- Model of `Severity` from `src/alerts.rs` (`Info = 0, Warning = 1, Critical = 2`). -/
inductive Severity where
  | info
  | warning
  | critical
deriving DecidableEq, Repr

/-- Model of `Display for Severity`: the lowercase names. -/
def Severity.toDisplay : Severity → String
  | .info => "info"
  | .warning => "warning"
  | .critical => "critical"

/-- Rust `str::contains` with a string pattern: substring test, by scanning
suffix positions for a prefix match. -/
def strContains (hay needle : String) : Bool :=
  go needle.toList hay.toList
where
  go (n h : List Char) : Bool :=
    if List.isPrefixOf n h then true
    else
      match h with
      | [] => false
      | _ :: t => go n t

/-- Rust `str::to_lowercase`, restricted to per-character lowering (the
keyword tables are ASCII, where the two coincide). -/
def strLower (s : String) : String :=
  ⟨s.toList.map Char.toLower⟩

/-- Model of `Severity::from_str` from `src/alerts.rs`: lowercase the input, then
test the three keyword lists in order Critical, Warn, Info by substring
containment.  NOTE: the source's Info branch returns `Severity::Warning`. -/
def Severity.from_str (s : String) : Except String Severity :=
  let CRITICAL : List String := ["crit", "error", "major", "high"]
  let WARN : List String := ["warn", "minor", "mid"]
  let INFO : List String := ["info", "normal", "debug", "low"]
  let s := strLower s
  if CRITICAL.any (fun c => strContains s c) then .ok .critical
  else if WARN.any (fun w => strContains s w) then .ok .warning
  else if INFO.any (fun i => strContains s i) then .ok .warning
  else .error "unknown severity"

/-! ## Label sanitizer (`src/sanitize.rs`) -/

/-- One step of the ` find_greedy_label_prefix` fold: the characterwise
common prefix of `common` and `k` (the source counts matching characters
of the zip, then takes that many; this recursion computes the same list). -/
def commonPrefixStep : List Char → List Char → List Char
  | a :: cs, b :: ks => if a = b then a :: commonPrefixStep cs ks else []
  | _, _ => []

/-- Model of ` find_greedy_label_prefix`: fold the characterwise common prefix over
all keys, starting from the first key (an empty map yields `""`). -/
def find_greedy_label_prefix (labels : Lmap) : String :=
  match Lmap.keys labels with
  | [] => ""
  | first :: _ =>
    ⟨(Lmap.keys labels).foldl (fun common k => commonPrefixStep common k.toList)
      first.toList⟩

/-- Model of `find_greedy_label_suffix`: as the prefix, on reversed characters. -/
def find_greedy_label_suffix (labels : Lmap) : String :=
  match Lmap.keys labels with
  | [] => ""
  | first :: _ =>
    ⟨((Lmap.keys labels).foldl
        (fun common k => (commonPrefixStep common.reverse k.toList.reverse).reverse)
        first.toList)⟩

/-- Stripping loop of `str::trim_start_matches`, with explicit fuel so it
reduces by structural recursion; a nonempty prefix removes at least one
character per round, so fuel `k.length` is enough. -/
def trimStartAux (p : List Char) : Nat → List Char → List Char
  | 0, k => k
  | Nat.succ fuel, k =>
    if List.isPrefixOf p k then trimStartAux p fuel (k.drop p.length) else k

/-- Rust `str::trim_start_matches`: repeatedly remove the pattern from the
front while it is a prefix (an empty pattern removes nothing). -/
def trimStartMatches (p : List Char) (k : List Char) : List Char :=
  if p.isEmpty then k else trimStartAux p k.length k

/-- Rust `str::trim_end_matches`: repeatedly remove the pattern from the
end while it is a suffix. -/
def trimEndMatches (p : List Char) (k : List Char) : List Char :=
  (trimStartMatches p.reverse k.reverse).reverse

/-- Model of ` greedy_truncate_labels_prefix`: rebuild the map with
`trim_start_matches(prefix)` applied to every key (colliding stripped keys
overwrite in iteration order, as `BTreeMap::insert` does in the source). -/
def greedy_truncate_labels_prefix (labels : Lmap) : Lmap :=
  let pfx := find_greedy_label_prefix labels
  labels.foldl
    (fun new_labels kv =>
      Lmap.insert new_labels ⟨trimStartMatches pfx.toList kv.1.toList⟩ kv.2)
    Lmap.empty

/-- Model of `greedy_truncate_labels_suffix`: rebuild the map with
`trim_end_matches(suffix)` applied to every key. -/
def greedy_truncate_labels_suffix (labels : Lmap) : Lmap :=
  let sfx := find_greedy_label_suffix labels
  labels.foldl
    (fun new_labels kv =>
      Lmap.insert new_labels ⟨trimEndMatches sfx.toList kv.1.toList⟩ kv.2)
    Lmap.empty

/-- Model of `clean_alert_name`: drop a trailing `"Trap"` (via `trim_end_matches`,
guarded by `ends_with`, so repeated `"Trap"` suffixes are all removed). -/
def clean_alert_name (name : String) : String :=
  if List.isSuffixOf "Trap".toList name.toList then
    ⟨trimEndMatches "Trap".toList name.toList⟩
  else name

deriving instance DecidableEq for Except

/-! ## Alert (`src/alerts.rs`) -/

/-- Model of `Alert` from `src/alerts.rs`.  Timestamps are modelled as integers.
The stored `hash` field of the source is a pure function of the identity
fields (`DefaultHasher` over name, severity, community, labels), computed
once at construction and never touched by merging; it is modelled as the
derived function `Alert.hash` below instead of a stored field. -/
structure Alert where
  severity : Severity
  community : String
  name : String
  times : List Int
  labels : Lmap
deriving DecidableEq

/-- The modelled deterministic identity hash (`impl Hash for Alert`
followed by `DefaultHasher::finish`): a 64-bit polynomial fold over the
identity fields `name, severity, community, labels`, in that order.  The
concrete mixing differs from `DefaultHasher` (SipHash); no claim depends
on particular hash values, only on the hash being a deterministic function
of exactly these fields. -/
def hashChars (seed : Nat) (cs : List Char) : Nat :=
  cs.foldl (fun h c => (h * 31 + c.toNat + 1) % 2 ^ 64) seed

def Alert.hash (a : Alert) : Nat :=
  let h := hashChars 5381 a.name.toList
  let h := (h * 31 + (match a.severity with
    | .info => 0
    | .warning => 1
    | .critical => 2) + 7) % 2 ^ 64
  let h := hashChars h a.community.toList
  a.labels.foldl (fun h kv => hashChars (hashChars h kv.1.toList) kv.2.toList) h

/-- Model of `impl PartialEq for Alert`: equality on name, severity, labels and
community — `times` (and the stored hash) are excluded. -/
def identEq (a b : Alert) : Bool :=
  a.name = b.name ∧ a.severity = b.severity ∧ a.labels = b.labels ∧
    a.community = b.community

/-- Model of `Alert::pretty_labels`: prefix pass then suffix pass on a copy. -/
def Alert.pretty_labels (a : Alert) : Lmap :=
  greedy_truncate_labels_suffix ( greedy_truncate_labels_prefix a.labels)

/-- Model of `Alert::pretty_name`. -/
def Alert.pretty_name (a : Alert) : String :=
  clean_alert_name a.name

/-- Model of `Alert::earliest`: minimum of `times` (`now` is the fallback the
source uses for an empty `times`, which construction never produces). -/
def Alert.earliest (a : Alert) (now : Int) : Int :=
  match a.times.min? with
  | some t => t
  | none => now

/-- One step of the `generate_alerts` accumulation: `HashSet::take` the
element equal (by `identEq`) to the incoming alert, extend its `times`
with the incoming times, and re-insert; absent an equal element, insert
the incoming alert.  The `HashSet` is modelled as a list; re-insertion
keeps the taken element's position. -/
def insertAlert (alerts : List Alert) (a : Alert) : List Alert :=
  match alerts with
  | [] => [a]
  | b :: rest =>
    if identEq b a then { b with times := b.times ++ a.times } :: rest
    else b :: insertAlert rest a

/-- Model of `generate_alerts` from `src/alerts.rs`. -/
def generate_alerts (raw_alerts : List Alert) : List Alert :=
  raw_alerts.foldl insertAlert []

/-! ## Alertmanager alert (`src/alertmanager.rs`)

`CONFIG.alertmanager_community_label()` and `CONFIG.web_url()` are global
configuration; they are threaded as explicit parameters `cl` and `wurl`.
RFC3339 formatting of the two timestamps is skipped: they stay integers. -/

structure AlertmanagerAlert where
  starts_at : Int
  ends_at : Int
  labels : Lmap
  annotations : Lmap
  generator_url : String
deriving DecidableEq

namespace AlertmanagerAlert

/-- Model of `AlertmanagerAlert::new`: the three reserved labels are inserted into
the caller-provided labels, in source order (`alertname`, then `severity`,
then the configured community label). -/
def new (cl wurl : String) (starts_at ends_at : Int) (name community : String)
    (severity : Severity) (labels annotations : Option Lmap) : AlertmanagerAlert :=
  let labels := labels.getD Lmap.empty
  let labels := labels.insert "alertname" name
  let labels := labels.insert "severity" severity.toDisplay
  let labels := labels.insert cl community
  { starts_at, ends_at, labels, annotations := annotations.getD Lmap.empty,
    generator_url := wurl }

/-- Model of `AlertmanagerAlert::name`: the `alertname` label, or `""`. -/
def name (a : AlertmanagerAlert) : String :=
  (a.labels.find "alertname").getD ""

/-- Model of `AlertmanagerAlert::is_restricted_label`. -/
def is_restricted_label (cl : String) (n : String) : Bool :=
  n = "alertname" ∨ n = "severity" ∨ n = cl

/-- Model of `AlertmanagerAlert::add_label`: silent no-op on a restricted name. -/
def add_label (cl : String) (a : AlertmanagerAlert) (n v : String) :
    AlertmanagerAlert :=
  if is_restricted_label cl n then a
  else { a with labels := a.labels.insert n v }

/-- Model of `AlertmanagerAlert::add_labels`. -/
def add_labels (cl : String) (a : AlertmanagerAlert)
    (ls : List (String × String)) : AlertmanagerAlert :=
  ls.foldl (fun a kv => add_label cl a kv.1 kv.2) a

/-- Model of `AlertmanagerAlert::remove_label`: refuses restricted names, returning
`none`; otherwise removes the label and returns its old value. -/
def remove_label (cl : String) (a : AlertmanagerAlert) (n : String) :
    AlertmanagerAlert × Option String :=
  if is_restricted_label cl n then (a, none)
  else ({ a with labels := a.labels.erase n }, a.labels.find n)

/-- Model of `AlertmanagerAlert::add_annotation` (no restriction). -/
def add_annotation (a : AlertmanagerAlert) (n v : String) : AlertmanagerAlert :=
  { a with annotations := a.annotations.insert n v }

/-- Model of `AlertmanagerAlert::add_annotations`. -/
def add_annotations (a : AlertmanagerAlert)
    (ls : List (String × String)) : AlertmanagerAlert :=
  ls.foldl (fun a kv => add_annotation a kv.1 kv.2) a

end AlertmanagerAlert

/-! ## Enrichment engine (`src/enrichment.rs`)

The Tera template engine is an injected capability: a parsed template is a
`Template`, rendering it against the alert's current labels either yields
a string or fails.  The `regex` crate is injected as a leftmost-match
function `findAt` returning the start and length of the match that
`Regex::find_at(s, 0)` would produce. -/

inductive Template where
  /-- A template with no placeholders. -/
  | const (s : String)
  /-- Model of `{{ labels.key }}`: renders the current value of a label. -/
  | label (key : String)
  /-- A template whose rendering fails at runtime. -/
  | fail (msg : String)
deriving DecidableEq

/-- Model of `Tera::render` of one template against the context built by
`build_context` (the alert's current labels). -/
def Template.render (t : Template) (labels : Lmap) : Except String String :=
  match t with
  | .const s => .ok s
  | .label k =>
    match labels.find k with
    | some v => .ok v
    | none => .error "missing label in template context"
  | .fail msg => .error msg

/-- Model of `regex::Regex`: `findAt s = some (start, len)` is the match
`Regex::find_at(s, 0)` reports (positions in characters). -/
structure Regex where
  findAt : String → Option (Nat × Nat)

/-- The full-match test used for rule names and drop patterns:
`find_at(s, 0).is_some_and(|m| m.len() == s.len())`. -/
def Regex.fullMatches (r : Regex) (s : String) : Bool :=
  match r.findAt s with
  | some m => m.2 = s.length
  | none => false

/-- A regex that fully matches exactly the strings in `ws` (e.g. the
pattern `a|b` for two whole literals), reporting a whole-string match. -/
def Regex.ofList (ws : List String) : Regex :=
  ⟨fun s => if ws.contains s then some (0, s.length) else none⟩

/-- A regex that fully matches any string (the pattern `.*`). -/
def Regex.matchAll : Regex :=
  ⟨fun s => some (0, s.length)⟩

/-- Model of `RawAlertEnrichmentDefinition`: the deserialized rule-file entry, with
templates already parsed (`build_templates` parse failures are a load-time
concern outside these claims). -/
structure RawAlertEnrichmentDefinition where
  name : Regex
  labels : Option (List (String × Template))
  annotations : Option (List (String × Template))
  drop_labels : Option (List Regex)

structure AlertEnrichmentDefinition where
  name : Regex
  label_templates : List (String × Template)
  annotation_templates : List (String × Template)
  drop_labels : List Regex

/-- Model of `AlertEnrichmentDefinition::new` — parameter order as in the source:
`(name, annotations, labels, drop_labels)`; `label_templates` is built
from the `labels` parameter and `annotation_templates` from the
`annotations` parameter. -/
def AlertEnrichmentDefinition.new (name : Regex)
    (annotations labels : Option (List (String × Template)))
    (drop_labels : Option (List Regex)) : AlertEnrichmentDefinition :=
  let annotations := annotations.getD []
  let labels := labels.getD []
  let drop_labels := drop_labels.getD []
  { name, label_templates := labels, annotation_templates := annotations,
    drop_labels }

/-- Model of `impl TryFrom<RawAlertEnrichmentDefinition>`: forwards the raw fields
positionally as `new(raw.name, raw.labels, raw.annotations,
raw.drop_labels)` — note against `new`'s parameter order above. -/
def RawAlertEnrichmentDefinition.toDefinition
    (raw : RawAlertEnrichmentDefinition) : AlertEnrichmentDefinition :=
  AlertEnrichmentDefinition.new raw.name raw.labels raw.annotations
    raw.drop_labels

/-- Model of `generate_labels`: render every template of the set against the
alert's current labels, failing on the first rendering error. -/
def generate_labels (templates : List (String × Template))
    (alert : AlertmanagerAlert) : Except String (List (String × String)) :=
  templates.mapM (fun nt => (nt.2.render alert.labels).map (fun v => (nt.1, v)))

namespace AlertEnrichmentDefinition

/-- Model of `AlertEnrichmentDefinition::applies_to`: anchored full match of the
rule's name pattern against the alert's display name. -/
def applies_to (d : AlertEnrichmentDefinition) (alert : AlertmanagerAlert) :
    Bool :=
  d.name.fullMatches alert.name

/-- The drop-label phase of `AlertEnrichmentDefinition::apply`: the label
names are snapshotted once (in `BTreeMap` key order); then for each drop
pattern in order, the first snapshotted name the pattern fully matches is
passed to `remove_label` and the inner scan `break`s. -/
def applyDropLabels (cl : String) (drop_labels : List Regex)
    (alert : AlertmanagerAlert) : AlertmanagerAlert :=
  let label_names := alert.labels.keys
  drop_labels.foldl
    (fun al rgx =>
      match label_names.find? (fun n => rgx.fullMatches n) with
      | some n => (al.remove_label cl n).1
      | none => al)
    alert

/-- Model of `AlertEnrichmentDefinition::apply`: on a full name match, add the
rendered label templates (restricted-name protected), then the rendered
annotation templates (whose context sees the just-added labels), then run
the drop-label phase.  A rendering failure propagates via `?`. -/
def apply (cl : String) (d : AlertEnrichmentDefinition)
    (alert : AlertmanagerAlert) : Except String (Bool × AlertmanagerAlert) :=
  if ¬ d.applies_to alert then .ok (false, alert)
  else do
    let ls ← generate_labels d.label_templates alert
    let alert := alert.add_labels cl ls
    let ans ← generate_labels d.annotation_templates alert
    let alert := alert.add_annotations ans
    .ok (true, applyDropLabels cl d.drop_labels alert)

end AlertEnrichmentDefinition

/-- Model of `AlertEnrichment::apply_all`: apply every loaded definition in order;
the `?` on each `apply` propagates the first failure. -/
def apply_all (cl : String) (defs : List AlertEnrichmentDefinition)
    (alert : AlertmanagerAlert) : Except String AlertmanagerAlert :=
  defs.foldlM (fun al d => (AlertEnrichmentDefinition.apply cl d al).map (·.2))
    alert

/-! ## Relay (`src/alertmanager.rs`: `AlertmanagerRelay::relay_alerts`) -/

/-- Model of `impl From<&Alert> for AlertmanagerAlert`: `starts_at` is the alert's
earliest occurrence, `ends_at` is `now + 3 *` the announce interval, the
labels are the sanitized `pretty_labels`, annotations `None`. -/
def alertToAlertmanager (cl wurl : String) (interval now : Int) (a : Alert) :
    AlertmanagerAlert :=
  AlertmanagerAlert.new cl wurl (a.earliest now) (now + 3 * interval)
    a.pretty_name a.community a.severity (some a.pretty_labels) none

/-- Model of `AlertmanagerRelay::enrich`: enrich every alert of the batch in order;
the `?` on each alert's `apply_all` propagates the first failure. -/
def enrichBatch (cl : String) (defs : List AlertEnrichmentDefinition)
    (alerts : List AlertmanagerAlert) : Except String (List AlertmanagerAlert) :=
  match alerts with
  | [] => .ok []
  | a :: rest =>
    match apply_all cl defs a with
    | .error e => .error e
    | .ok a' =>
      match enrichBatch cl defs rest with
      | .error e => .error e
      | .ok rest' => .ok (a' :: rest')

/-- Model of `AlertmanagerRelay::relay_alerts` up to the HTTP POST: read the cached
alerts, convert, enrich; `.ok payload` means the delivery attempt is made
with `payload` as the JSON body, `.error` means the attempt is aborted
before any delivery. -/
def relay_alerts (cl wurl : String) (interval now : Int)
    (defs : List AlertEnrichmentDefinition) (cached : List Alert) :
    Except String (List AlertmanagerAlert) :=
  enrichBatch cl defs (cached.map (alertToAlertmanager cl wurl interval now))

/-! ## Alert cache (`src/trap_db.rs`)

The Postgres pool is an injected collaborator: the outcome of
`fetch_alerts` at the moment a refresh happens is passed in as an
`Except`, and the outcome of the `DELETE` statement as a `Bool`.
`Instant` is an integer timestamp, `elapsed > 5s` becomes
`now - lastUpdate > 5`. -/

structure TrapDbState where
  cache : List Alert
  lastUpdate : Int
deriving DecidableEq

/-- Model of `TrapDb::update_cache`: on fetch failure only log, leaving both the
cached set and the timestamp untouched; on success replace the set and
stamp the time. -/
def update_cache (fetched : Except String (List Alert)) (now : Int)
    (st : TrapDbState) : TrapDbState :=
  match fetched with
  | .error _ => st
  | .ok alerts => { cache := alerts, lastUpdate := now }

/-- Model of `TrapDb::cached_alerts`: refresh first when the cache is older than 5
seconds, then return the (possibly unchanged) cached set. -/
def cached_alerts (fetched : Except String (List Alert)) (now : Int)
    (st : TrapDbState) : List Alert × TrapDbState :=
  let st := if now - st.lastUpdate > 5 then update_cache fetched now st else st
  (st.cache, st)

/-- The `DELETE FROM snmp_trap ...` filter built by `make_label_query`. -/
structure DeleteQuery where
  name : String
  community : String
  labelFilters : List (String × String)
deriving DecidableEq

/-- Model of `make_label_query`: exact-match filter on the alert's raw name, raw
community and raw labels — except that a label whose key contains a `"`
is logged and skipped (the key is spliced into the SQL unquoted). -/
def make_label_query (alert : Alert) : DeleteQuery :=
  { name := alert.name, community := alert.community,
    labelFilters :=
      alert.labels.filter (fun kv => !(kv.1.toList.contains '"')) }

/-- Model of `TrapDb::clear_alerts`: read the cached set (possibly refreshing it),
look the hash up; absent → `Ok` with nothing issued; present → run the
delete (whose query is returned for inspection) and, only when it
succeeded, force `update_cache` — a failed delete propagates via `?`
before the refresh.  `fetched1` is the fetch outcome a staleness refresh
inside `cached_alerts` would see, `fetched2` the one the post-delete
refresh would see, `deleteOk` the outcome of the `DELETE`. -/
def clear_alerts (fetched1 fetched2 : Except String (List Alert))
    (deleteOk : Bool) (now : Int) (hashv : Nat) (st : TrapDbState) :
    Except String Unit × TrapDbState × Option DeleteQuery :=
  let read := cached_alerts fetched1 now st
  match read.1.find? (fun a => a.hash == hashv) with
  | none => (.ok (), read.2, none)
  | some alert =>
    if deleteOk then
      (.ok (), update_cache fetched2 now read.2, some (make_label_query alert))
    else
      (.error "delete failed", read.2, some (make_label_query alert))

/-! ## Support lemmas about the `BTreeMap` model -/

instance : Membership (String × String) Lmap := by
  unfold Lmap; infer_instance

theorem Lmap.find_nil (k' : String) : Lmap.find [] k' = none := rfl

theorem Lmap.find_cons (k₀ v₀ : String) (rest : List (String × String))
    (k' : String) :
    Lmap.find ((k₀, v₀) :: rest) k' =
      if k₀ = k' then some v₀ else Lmap.find rest k' := by
  by_cases h : k₀ = k' <;> simp [Lmap.find, List.find?_cons, h]

theorem Lmap.find_insert_self (m : Lmap) (k v : String) :
    Lmap.find (Lmap.insert m k v) k = some v := by
  induction m with
  | nil => simp [Lmap.insert, Lmap.find_cons, Lmap.find_nil]
  | cons p rest ih =>
    obtain ⟨k', v'⟩ := p
    by_cases hlt : strLt k k'
    · simp [Lmap.insert, hlt, Lmap.find_cons]
    · by_cases heq : k = k'
      · subst heq
        simp only [Lmap.insert, hlt, if_false, if_pos rfl]
        split <;> simp [Lmap.find_cons]
      · have hne : k' ≠ k := fun h => heq h.symm
        simpa [Lmap.insert, hlt, heq, Lmap.find_cons, hne] using ih

theorem Lmap.find_insert_ne (m : Lmap) (k v k' : String) (h : k' ≠ k) :
    Lmap.find (Lmap.insert m k v) k' = Lmap.find m k' := by
  have hk : k ≠ k' := fun hh => h hh.symm
  induction m with
  | nil => simp [Lmap.insert, Lmap.find_cons, Lmap.find_nil, hk]
  | cons p rest ih =>
    obtain ⟨k₀, v₀⟩ := p
    by_cases hlt : strLt k k₀
    · simp [Lmap.insert, hlt, Lmap.find_cons, hk]
    · by_cases heq : k = k₀
      · subst heq
        simp [Lmap.insert, hlt, Lmap.find_cons, hk]
      · simp only [Lmap.insert]
        rw [if_neg hlt, if_neg heq, Lmap.find_cons, Lmap.find_cons, ih]

theorem Lmap.find_insert_isSome (m : Lmap) (k v k' : String)
    (h : (Lmap.find m k').isSome) :
    (Lmap.find (Lmap.insert m k v) k').isSome := by
  by_cases hk : k' = k
  · subst hk; simp [Lmap.find_insert_self]
  · rwa [Lmap.find_insert_ne m k v k' hk]

theorem Lmap.erase_cons_self (k v₀ : String) (rest : List (String × String)) :
    Lmap.erase ((k, v₀) :: rest) k = Lmap.erase rest k := by
  simp [Lmap.erase, List.filter]

theorem Lmap.erase_cons_ne (k₀ v₀ k : String) (rest : List (String × String))
    (h : k₀ ≠ k) :
    Lmap.erase ((k₀, v₀) :: rest) k = (k₀, v₀) :: Lmap.erase rest k := by
  simp [Lmap.erase, List.filter, h]

theorem Lmap.find_erase (m : Lmap) (k k' : String) :
    Lmap.find (Lmap.erase m k) k' =
      if k' = k then none else Lmap.find m k' := by
  induction m with
  | nil =>
    by_cases hk : k' = k <;> simp [Lmap.erase, Lmap.find_nil, hk]
  | cons p rest ih =>
    obtain ⟨k₀, v₀⟩ := p
    by_cases h₀ : k₀ = k
    · subst h₀
      rw [Lmap.erase_cons_self, ih, Lmap.find_cons]
      by_cases hk : k' = k₀
      · simp [hk]
      · have hne : ¬(k₀ = k') := fun hh => hk hh.symm
        simp [hk, hne]
    · rw [Lmap.erase_cons_ne k₀ v₀ k rest h₀, Lmap.find_cons, ih,
        Lmap.find_cons]
      by_cases hk : k₀ = k'
      · by_cases hk' : k' = k
        · exact absurd (hk.trans hk') h₀
        · simp [hk, hk']
      · by_cases hk' : k' = k
        · simp [hk, hk', h₀]
        · simp [hk, hk']

theorem trimStartAux_nil (p : List Char) (fuel : Nat) :
    trimStartAux p fuel [] = [] := by
  induction fuel with
  | zero => rfl
  | succ n ih =>
    simp only [trimStartAux]
    split
    · simpa using ih
    · rfl

theorem trimStartMatches_self (p : List Char) (h : p ≠ []) :
    trimStartMatches p p = [] := by
  have hpre : List.isPrefixOf p p = true :=
    List.isPrefixOf_iff_prefix.mpr (List.prefix_refl p)
  cases p with
  | nil => exact absurd rfl h
  | cons c cs =>
    simp only [trimStartMatches, List.isEmpty_cons, if_false, Bool.false_eq_true,
      List.length_cons]
    rw [trimStartAux, if_pos hpre, List.drop_length]
    exact trimStartAux_nil _ _

theorem trimStartMatches_nil_pattern (k : List Char) :
    trimStartMatches [] k = k := rfl

theorem trimEndMatches_nil_pattern (k : List Char) :
    trimEndMatches [] k = k := by
  simp [trimEndMatches, trimStartMatches_nil_pattern]

theorem Lmap.find_eq_some_mem (m : Lmap) (k v : String)
    (h : Lmap.find m k = some v) : (k, v) ∈ m := by
  induction m with
  | nil => simp [Lmap.find_nil] at h
  | cons p rest ih =>
    obtain ⟨k₀, v₀⟩ := p
    by_cases hk : k₀ = k
    · subst hk
      rw [Lmap.find_cons] at h
      simp at h
      subst h
      exact List.mem_cons_self _ _
    · rw [Lmap.find_cons, if_neg hk] at h
      exact List.mem_cons_of_mem _ (ih h)

/-! ## Claim C6 — Severity keyword routing -/

/-- C6 counterexample: the claim says `from_str` sends `"info"` to `Info`
per the §3 table; the source's Info branch returns `Severity::Warning`. -/
theorem severity_info_not_info :
    Severity.from_str "info" = .ok .warning ∧
      Severity.from_str "info" ≠ .ok .info := by decide

/-- C6 (amended): an input whose lowercase form contains one of
`info|normal|debug|low` and none of the Critical or Warning keywords is
parsed as `Warning` (the behavior §9 records), not `Info`. -/
theorem severity_info_keywords_route_to_warning (s : String)
    (hcrit : (["crit", "error", "major", "high"] : List String).any
      (fun w => strContains (strLower s) w) = false)
    (hwarn : (["warn", "minor", "mid"] : List String).any
      (fun w => strContains (strLower s) w) = false)
    (hinfo : (["info", "normal", "debug", "low"] : List String).any
      (fun w => strContains (strLower s) w) = true) :
    Severity.from_str s = .ok .warning := by
  simp only [Severity.from_str, hcrit, hwarn, hinfo]
  rfl

/-- C6 witness: the amended theorem applied at `"NORMAL battery"`. -/
theorem severity_info_keywords_route_to_warning_witness :
    Severity.from_str "NORMAL battery" = .ok .warning :=
  severity_info_keywords_route_to_warning "NORMAL battery"
    (by decide) (by decide) (by decide)

/-! ## Claim C8 — stale-cache resilience -/

/-- C8: a failed data-source fetch leaves `update_cache` a no-op on both
the cached set and the timestamp, and a read through `cached_alerts`
still returns the previously cached set with the state unchanged — no
error reaches the reader. -/
theorem cache_preserved_on_fetch_failure (e : String) (now : Int)
    (st : TrapDbState) :
    update_cache (.error e) now st = st ∧
    (cached_alerts (.error e) now st).1 = st.cache ∧
    (cached_alerts (.error e) now st).2 = st := by
  refine ⟨rfl, ?_, ?_⟩ <;> simp [cached_alerts, update_cache]

/-! ## Claim C1 — labels and annotations are interchanged at load time -/

/-- The rule file entry used to exhibit the label/annotation swap:
`labels: {lab: "LV"}`, `annotations: {ann: "AV"}`, name pattern `.*`. -/
def c1raw : RawAlertEnrichmentDefinition :=
  { name := Regex.matchAll,
    labels := some [("lab", Template.const "LV")],
    annotations := some [("ann", Template.const "AV")],
    drop_labels := none }

def c1alert : AlertmanagerAlert :=
  AlertmanagerAlert.new "community" "w" 0 0 "a" "c" .critical none none

/-- C1: evaluating the loaded rule shows the interchange.
`TryFrom` forwards `(raw.name, raw.labels, raw.annotations, ...)` into
`new(name, annotations, labels, ...)`, so applying the loaded rule puts
the rule file's `annotations` entry `ann` into the alert's *labels* (via
the protected add) and the rule file's `labels` entry `lab` into the
alert's *annotations* — the opposite of the claim. -/
theorem enrichment_swaps_labels_and_annotations :
    (AlertEnrichmentDefinition.apply "community" c1raw.toDefinition c1alert).map
        (fun r =>
          (Lmap.find r.2.labels "ann", Lmap.find r.2.labels "lab",
           Lmap.find r.2.annotations "lab", Lmap.find r.2.annotations "ann")) =
      .ok (some "AV", none, some "LV", none) := by decide

/-! ## Claim C10 — single-label alert collapses its key to the empty string -/

theorem commonPrefixStep_self (l : List Char) : commonPrefixStep l l = l := by
  induction l with
  | nil => rfl
  | cons c cs ih => simp [commonPrefixStep, ih]

theorem String.toList_ne_nil (k : String) (h : k ≠ "") : k.toList ≠ [] := by
  intro hl
  apply h
  cases k with
  | mk data =>
    simp only [String.toList] at hl
    subst hl
    rfl

/-- C10: a single-label alert with a non-empty key `k` has `k` as the
longest common prefix of its key set; `trim_start_matches` strips it in
full, collapsing the key to `""` while keeping the value, and the suffix
pass (common suffix of `[""]` is `""`) changes nothing. -/
theorem pretty_labels_single_label (sev : Severity) (c n : String)
    (ts : List Int) (k v : String) (hk : k ≠ "") :
    Alert.pretty_labels
      { severity := sev, community := c, name := n, times := ts,
        labels := [(k, v)] } = [("", v)] := by
  have hkl : k.toList ≠ [] := String.toList_ne_nil k hk
  have hpfx : find_greedy_label_prefix [(k, v)] = k := by
    simp [ find_greedy_label_prefix, Lmap.keys, commonPrefixStep_self]
  have h1 : greedy_truncate_labels_prefix [(k, v)] = [("", v)] := by
    have hts : trimStartMatches k.data k.data = ([] : List Char) :=
      trimStartMatches_self k.toList hkl
    simp [ greedy_truncate_labels_prefix, hpfx, Lmap.empty, hts]
    rfl
  have h2 : greedy_truncate_labels_suffix [("", v)] = [("", v)] := rfl
  show greedy_truncate_labels_suffix ( greedy_truncate_labels_prefix [(k, v)]) =
    [("", v)]
  rw [h1, h2]

/-- C10 witness: the theorem applied at the single label `{"onlyKey": "v"}`. -/
theorem pretty_labels_single_label_witness :
    Alert.pretty_labels
      { severity := .critical, community := "c", name := "n", times := [0],
        labels := [("onlyKey", "v")] } = [("", "v")] :=
  pretty_labels_single_label .critical "c" "n" [0] "onlyKey" "v" (by decide)

/-! ## Claim C5 — sanitizer passes -/

theorem find_foldl_insert_isSome (f : String → String)
    (l : List (String × String)) (m : Lmap) (k : String)
    (h : (Lmap.find m k).isSome) :
    (Lmap.find
      (List.foldl (fun acc kv => Lmap.insert acc (f kv.1) kv.2) m l)
      k).isSome := by
  induction l generalizing m with
  | nil => exact h
  | cons p rest ih =>
    exact ih (Lmap.insert m (f p.1) p.2) (Lmap.find_insert_isSome m (f p.1) p.2 k h)

theorem find_foldl_insert_mem (f : String → String)
    (l : List (String × String)) (m : Lmap) (k v : String)
    (hm : (k, v) ∈ l) :
    (Lmap.find
      (List.foldl (fun acc kv => Lmap.insert acc (f kv.1) kv.2) m l)
      (f k)).isSome := by
  induction l generalizing m with
  | nil => exact absurd hm (List.not_mem_nil _)
  | cons p rest ih =>
    rcases List.mem_cons.mp hm with h | h
    · subst h
      exact find_foldl_insert_isSome f rest _ (f k)
        (by rw [Lmap.find_insert_self]; rfl)
    · exact ih (Lmap.insert m (f p.1) p.2) h

theorem greedy_truncate_labels_prefix_eq_foldl (labels : Lmap) :
    greedy_truncate_labels_prefix labels =
      List.foldl
        (fun acc kv =>
          Lmap.insert acc
            ⟨trimStartMatches ( find_greedy_label_prefix labels).toList kv.1.toList⟩
            kv.2)
        Lmap.empty labels := rfl

theorem greedy_truncate_labels_suffix_eq_foldl (labels : Lmap) :
    greedy_truncate_labels_suffix labels =
      List.foldl
        (fun acc kv =>
          Lmap.insert acc
            ⟨trimEndMatches (find_greedy_label_suffix labels).toList kv.1.toList⟩
            kv.2)
        Lmap.empty labels := rfl

/-- C5 counterexample: on the claim's own example the suffix pass is not a
no-op — the prefix-stripped keys `Name`/`Value` share the suffix `"e"`,
which `trim_end_matches` removes, yielding `{"Nam":"x","Valu":"y"}`; and
on `{"ab":"y","abab":"x"}` the prefix `"ab"` is stripped repeatedly (not
exactly once), collapsing both keys to `""` where the later value wins,
instead of the claimed `{"":"y","ab":"x"}`. -/
theorem pretty_labels_not_single_strip :
    (Alert.pretty_labels
        { severity := .critical, community := "c", name := "n", times := [0],
          labels := [("trapAlarmName", "x"), ("trapAlarmValue", "y")] } =
          [("Nam", "x"), ("Valu", "y")] ∧
      Alert.pretty_labels
        { severity := .critical, community := "c", name := "n", times := [0],
          labels := [("trapAlarmName", "x"), ("trapAlarmValue", "y")] } ≠
          [("Name", "x"), ("Value", "y")]) ∧
    (Alert.pretty_labels
        { severity := .critical, community := "c", name := "n", times := [0],
          labels := [("ab", "y"), ("abab", "x")] } = [("", "x")] ∧
      Alert.pretty_labels
        { severity := .critical, community := "c", name := "n", times := [0],
          labels := [("ab", "y"), ("abab", "x")] } ≠
          [("", "y"), ("ab", "x")]) := by decide

/-- C5 (amended): `pretty_labels` removes from every key all leading
occurrences of the characterwise longest common prefix of the keys, then
all trailing occurrences of the longest common suffix of the
already-prefix-stripped keys (keys that collide after stripping merge,
the later one overwriting); on the spec's example the prefix `trapAlarm`
is stripped and then the common suffix `e` of `Name`/`Value`, yielding
`{"Nam":"x","Valu":"y"}`.  The general conjunct: every original key
survives into the result under the double trim. -/
theorem pretty_labels_double_trim :
    (Alert.pretty_labels
      { severity := .critical, community := "c", name := "n", times := [0],
        labels := [("trapAlarmName", "x"), ("trapAlarmValue", "y")] } =
      [("Nam", "x"), ("Valu", "y")]) ∧
    ∀ (a : Alert) (k v : String), (k, v) ∈ a.labels →
      (Lmap.find a.pretty_labels
        ⟨trimEndMatches
          (find_greedy_label_suffix ( greedy_truncate_labels_prefix a.labels)).toList
          (trimStartMatches ( find_greedy_label_prefix a.labels).toList
            k.toList)⟩).isSome := by
  constructor
  · decide
  · intro a k v hm
    have h1 :
        (Lmap.find ( greedy_truncate_labels_prefix a.labels)
          ⟨trimStartMatches ( find_greedy_label_prefix a.labels).toList
            k.toList⟩).isSome := by
      rw [greedy_truncate_labels_prefix_eq_foldl]
      exact find_foldl_insert_mem
        (fun s => ⟨trimStartMatches ( find_greedy_label_prefix a.labels).toList
          s.toList⟩)
        a.labels Lmap.empty k v hm
    obtain ⟨v', hv'⟩ := Option.isSome_iff_exists.mp h1
    have hmem := Lmap.find_eq_some_mem _ _ _ hv'
    show (Lmap.find
      (greedy_truncate_labels_suffix ( greedy_truncate_labels_prefix a.labels))
      _).isSome
    rw [greedy_truncate_labels_suffix_eq_foldl]
    have := find_foldl_insert_mem
      (fun s => ⟨trimEndMatches
        (find_greedy_label_suffix ( greedy_truncate_labels_prefix a.labels)).toList
        s.toList⟩)
      ( greedy_truncate_labels_prefix a.labels) Lmap.empty _ v' hmem
    simpa using this

/-- C5 witness: the amended theorem's general conjunct applied to the key
`trapAlarmName` of the example alert. -/
theorem pretty_labels_double_trim_witness :
    (Lmap.find
      (Alert.pretty_labels
        { severity := .critical, community := "c", name := "n", times := [0],
          labels := [("trapAlarmName", "x"), ("trapAlarmValue", "y")] })
      ⟨trimEndMatches
        (find_greedy_label_suffix ( greedy_truncate_labels_prefix
          [("trapAlarmName", "x"), ("trapAlarmValue", "y")])).toList
        (trimStartMatches ( find_greedy_label_prefix
          [("trapAlarmName", "x"), ("trapAlarmValue", "y")]).toList
          "trapAlarmName".toList)⟩).isSome :=
  pretty_labels_double_trim.2
    { severity := .critical, community := "c", name := "n", times := [0],
      labels := [("trapAlarmName", "x"), ("trapAlarmValue", "y")] }
    "trapAlarmName" "x" (List.mem_cons_self _ _)

/-! ## Claim C2 — drop-label patterns remove one label each -/

theorem applyDropLabels_eq_foldl (cl : String) (drops : List Regex)
    (al : AlertmanagerAlert) :
    AlertEnrichmentDefinition.applyDropLabels cl drops al =
      drops.foldl
        (fun acc rgx =>
          match (al.labels.keys).find? (fun n => rgx.fullMatches n) with
          | some n => (acc.remove_label cl n).1
          | none => acc)
        al := rfl

theorem dropFold_find_none (cl : String) (names : List String)
    (drops : List Regex) (al : AlertmanagerAlert) (n : String)
    (h : Lmap.find
      (drops.foldl
        (fun acc rgx =>
          match names.find? (fun m => rgx.fullMatches m) with
          | some m => (acc.remove_label cl m).1
          | none => acc)
        al).labels n = none) :
    Lmap.find al.labels n = none ∨
      ∃ r ∈ drops, names.find? (fun m => r.fullMatches m) = some n := by
  induction drops generalizing al with
  | nil => exact Or.inl h
  | cons r rest ih =>
    simp only [List.foldl_cons] at h
    rcases ih _ h with h' | ⟨r', hr', hfind⟩
    · cases hstep : names.find? (fun m => r.fullMatches m) with
      | none =>
        rw [hstep] at h'
        exact Or.inl h'
      | some m =>
        rw [hstep] at h'
        by_cases hres : AlertmanagerAlert.is_restricted_label cl m = true
        · simp only [AlertmanagerAlert.remove_label, hres, if_true] at h'
          exact Or.inl h'
        · simp only [AlertmanagerAlert.remove_label, hres, if_false,
            Bool.false_eq_true] at h'
          rw [Lmap.find_erase] at h'
          by_cases hnm : n = m
          · subst hnm
            exact Or.inr ⟨r, List.mem_cons_self _ _, hstep⟩
          · rw [if_neg hnm] at h'
            exact Or.inl h'
    · exact Or.inr ⟨r', List.mem_cons_of_mem _ hr', hfind⟩

/-- The alert and rule of the C2 counterexample: a single drop pattern
that fully matches both of the labels `d_one` and `d_two`. -/
def c2alert : AlertmanagerAlert :=
  AlertmanagerAlert.new "community" "w" 0 0 "a" "c" .critical
    (some [("d_one", "1"), ("d_two", "2")]) none

def c2def : AlertEnrichmentDefinition :=
  { name := Regex.matchAll, label_templates := [], annotation_templates := [],
    drop_labels := [Regex.ofList ["d_one", "d_two"]] }

/-- C2 counterexample: the single drop pattern fully matches `d_two` as
well, yet after `apply` only `d_one` (the first snapshot name scanned) is
removed and `d_two` survives — the loop is outer-over-patterns with a
`break` after one removal, not outer-over-names. -/
theorem drop_pattern_leaves_second_match :
    (Regex.ofList ["d_one", "d_two"]).fullMatches "d_two" = true ∧
    AlertEnrichmentDefinition.apply "community" c2def c2alert =
      .ok (true,
        { starts_at := 0, ends_at := 0,
          labels := [("alertname", "a"), ("community", "c"), ("d_two", "2"),
            ("severity", "critical")],
          annotations := [], generator_url := "w" }) := by decide

/-- C2 (amended): each drop pattern removes at most one label per rule
application: scanning the snapshot of post-addition label names in key
order, the first name the pattern fully matches is handed to
`remove_label` and the scan stops.  Conjunct 1: a label can only
disappear if some pattern of the rule has it as its *first* full match in
the snapshot.  Conjunct 2: a single pattern does remove its first
full-matched name when that name is not reserved. -/
theorem drop_labels_first_match_only :
    (∀ (cl : String) (drops : List Regex) (al : AlertmanagerAlert) (n : String),
        Lmap.find (AlertEnrichmentDefinition.applyDropLabels cl drops al).labels
            n = none →
        Lmap.find al.labels n = none ∨
          ∃ r ∈ drops,
            (al.labels.keys).find? (fun m => r.fullMatches m) = some n) ∧
    (∀ (cl : String) (r : Regex) (al : AlertmanagerAlert) (n : String),
        (al.labels.keys).find? (fun m => r.fullMatches m) = some n →
        AlertmanagerAlert.is_restricted_label cl n = false →
        Lmap.find (AlertEnrichmentDefinition.applyDropLabels cl [r] al).labels
          n = none) := by
  constructor
  · intro cl drops al n h
    rw [applyDropLabels_eq_foldl] at h
    exact dropFold_find_none cl al.labels.keys drops al n h
  · intro cl r al n hfind hres
    rw [applyDropLabels_eq_foldl]
    simp only [List.foldl_cons, List.foldl_nil, hfind]
    simp only [AlertmanagerAlert.remove_label, hres, if_false,
      Bool.false_eq_true]
    rw [Lmap.find_erase, if_pos rfl]

/-- C2 witness: the amended theorem's second conjunct applied to the
counterexample rule and alert, removing `d_one`. -/
theorem drop_labels_first_match_only_witness :
    Lmap.find
      (AlertEnrichmentDefinition.applyDropLabels "community"
        [Regex.ofList ["d_one", "d_two"]] c2alert).labels "d_one" = none :=
  drop_labels_first_match_only.2 "community" (Regex.ofList ["d_one", "d_two"])
    c2alert "d_one" (by decide) (by decide)

/-! ## Claim C3 — a template render failure aborts the relay attempt -/

theorem enrichBatch_error_iff (cl : String)
    (defs : List AlertEnrichmentDefinition) (alerts : List AlertmanagerAlert) :
    (∃ e, enrichBatch cl defs alerts = .error e) ↔
      ∃ a ∈ alerts, ∃ e, apply_all cl defs a = .error e := by
  induction alerts with
  | nil => simp [enrichBatch]
  | cons a rest ih =>
    simp only [enrichBatch]
    cases hfa : apply_all cl defs a with
    | error e =>
      constructor
      · intro _
        exact ⟨a, List.mem_cons_self _ _, e, hfa⟩
      · intro _
        exact ⟨e, rfl⟩
    | ok b =>
      cases hrest : enrichBatch cl defs rest with
      | error e =>
        constructor
        · intro _
          obtain ⟨x, hx, he⟩ := ih.mp ⟨e, hrest⟩
          exact ⟨x, List.mem_cons_of_mem _ hx, he⟩
        · intro _
          exact ⟨e, rfl⟩
      | ok bs =>
        constructor
        · rintro ⟨e, he⟩
          exact absurd he (by simp)
        · rintro ⟨x, hx, e, he⟩
          rcases List.mem_cons.mp hx with hx | hx
          · subst hx
            rw [hfa] at he
            exact absurd he (by simp)
          · obtain ⟨e2, he2⟩ := ih.mpr ⟨x, hx, e, he⟩
            rw [hrest] at he2
            exact absurd he2 (by simp)

/-- The enrichment rule of the C3 counterexample: matches every alert and
has one label template whose rendering fails. -/
def c3defFail : AlertEnrichmentDefinition :=
  { name := Regex.matchAll, label_templates := [("x", Template.fail "boom")],
    annotation_templates := [], drop_labels := [] }

def c3a1 : Alert :=
  { severity := .critical, community := "c", name := "alert1", times := [5],
    labels := [("k", "v")] }

def c3a2 : Alert :=
  { severity := .info, community := "c", name := "alert2", times := [7],
    labels := [("k2", "v2")] }

/-- C3 counterexample: a rule whose template rendering fails makes
`relay_alerts` return the error — no alert of the batch is delivered and
no delivery attempt is made, where the claim says only that rule's
contribution to that alert is skipped and delivery still happens. -/
theorem relay_aborts_on_render_failure :
    relay_alerts "community" "w" 60 100 [c3defFail] [c3a1, c3a2] =
      .error "boom" := by decide

/-- C3 (amended): a template rendering failure for any rule/alert pair of
the cycle aborts the whole relay attempt — `apply_all` and the batch
enrichment propagate the first error via `?`, so `relay_alerts` returns
an error (and posts nothing) exactly when some converted alert of the
batch has a failing `apply_all`; the relay *loop* survives because the
caller only logs the returned error. -/
theorem relay_error_iff_enrichment_fails (cl wurl : String)
    (interval now : Int) (defs : List AlertEnrichmentDefinition)
    (cached : List Alert) :
    (∃ e, relay_alerts cl wurl interval now defs cached = .error e) ↔
      ∃ am ∈ cached.map (alertToAlertmanager cl wurl interval now),
        ∃ e, apply_all cl defs am = .error e := by
  unfold relay_alerts
  exact enrichBatch_error_iff cl defs _

/-! ## Claim C4 — clear_alerts -/

/-- The alert of the C4 counterexample: one of its label keys contains a
double quote, and the delete against the data source fails. -/
def c4alert : Alert :=
  { severity := .critical, community := "comm", name := "alarm", times := [3],
    labels := [("ok", "w"), ("we\"ird", "v")] }

/-- C4 counterexample: with the matching alert cached and the delete
failing, `clear_alerts` propagates the error *without* the claimed
unconditional refresh (the state keeps the old cache even though a fresh
fetch would return `[]`), and the issued filter omits the quoted-key
label, so not every raw label is used as a filter. -/
theorem clear_alerts_failed_delete_skips_refresh :
    clear_alerts (.error "unused") (.ok []) false 0 (Alert.hash c4alert)
        { cache := [c4alert], lastUpdate := 0 } =
      (.error "delete failed", { cache := [c4alert], lastUpdate := 0 },
        some (⟨"alarm", "comm", [("ok", "w")]⟩ : DeleteQuery)) ∧
    ([("ok", "w")] : List (String × String)) ≠ c4alert.labels ∧
    [c4alert] ≠ ([] : List Alert) := by decide

/-- C4 (amended): deleting a hash absent from the (possibly just
refreshed) cached set is a no-op returning success with no delete issued;
a present hash issues a delete filtering on the alert's raw name, raw
community and every raw label whose key contains no `"`, and the
unconditional cache refresh happens only when the delete succeeded — a
failed delete returns the error with the state untouched. -/
theorem clear_alerts_spec :
    (∀ (f1 f2 : Except String (List Alert)) (dok : Bool) (now : Int)
        (h : Nat) (st : TrapDbState),
      (cached_alerts f1 now st).1.find? (fun a => a.hash == h) = none →
      clear_alerts f1 f2 dok now h st =
        (.ok (), (cached_alerts f1 now st).2, none)) ∧
    (∀ (f1 f2 : Except String (List Alert)) (now : Int) (h : Nat)
        (st : TrapDbState) (a : Alert),
      (cached_alerts f1 now st).1.find? (fun a => a.hash == h) = some a →
      clear_alerts f1 f2 true now h st =
        (.ok (), update_cache f2 now (cached_alerts f1 now st).2,
          some (make_label_query a))) ∧
    (∀ (f1 f2 : Except String (List Alert)) (now : Int) (h : Nat)
        (st : TrapDbState) (a : Alert),
      (cached_alerts f1 now st).1.find? (fun a => a.hash == h) = some a →
      clear_alerts f1 f2 false now h st =
        (.error "delete failed", (cached_alerts f1 now st).2,
          some (make_label_query a))) ∧
    (∀ (a : Alert) (kv : String × String), kv ∈ a.labels →
      (make_label_query a).name = a.name ∧
      (make_label_query a).community = a.community ∧
      (kv ∈ (make_label_query a).labelFilters ↔
        kv.1.toList.contains '"' = false)) := by
  refine ⟨?_, ?_, ?_, ?_⟩
  · intro f1 f2 dok now h st hfind
    simp only [clear_alerts, hfind]
  · intro f1 f2 now h st a hfind
    simp only [clear_alerts, hfind, if_true]
  · intro f1 f2 now h st a hfind
    simp [clear_alerts, hfind]
  · intro a kv hkv
    refine ⟨rfl, rfl, ?_⟩
    constructor
    · intro hmem
      have := (List.mem_filter.mp hmem).2
      simpa using this
    · intro hq
      exact List.mem_filter.mpr ⟨hkv, by simpa using hq⟩

/-- C4 witness: the amended theorem's first conjunct applied to an empty
cache (absent hash): success, no delete, no refresh. -/
theorem clear_alerts_spec_witness :
    clear_alerts (.error "f") (.error "f") true 0 0
        { cache := [], lastUpdate := 0 } =
      (.ok (),
        (cached_alerts (.error "f") 0 { cache := [], lastUpdate := 0 }).2,
        none) :=
  clear_alerts_spec.1 (.error "f") (.error "f") true 0 0
    { cache := [], lastUpdate := 0 } (by decide)

/-! ## Claim C9 — reserved labels -/

/-- C9: `AlertmanagerAlert::new` installs the labels `alertname`,
`severity` and the configured community label; `add_label` (and so
`add_labels`) silently no-ops on a restricted name and `remove_label`
refuses one, so every label operation of the enrichment engine preserves
the reserved labels' values, while a non-restricted label is still set. -/
theorem reserved_labels_protected :
    (∀ (cl wurl : String) (s e : Int) (n c : String) (sev : Severity)
        (ls ans : Option Lmap),
      Lmap.hasKey (AlertmanagerAlert.new cl wurl s e n c sev ls ans).labels
          "alertname" = true ∧
      Lmap.hasKey (AlertmanagerAlert.new cl wurl s e n c sev ls ans).labels
          "severity" = true ∧
      Lmap.hasKey (AlertmanagerAlert.new cl wurl s e n c sev ls ans).labels
          cl = true) ∧
    (∀ (cl : String) (al : AlertmanagerAlert) (n v k : String),
      AlertmanagerAlert.is_restricted_label cl k = true →
      Lmap.find (al.add_label cl n v).labels k = Lmap.find al.labels k) ∧
    (∀ (cl : String) (al : AlertmanagerAlert) (ls : List (String × String))
        (k : String),
      AlertmanagerAlert.is_restricted_label cl k = true →
      Lmap.find (al.add_labels cl ls).labels k = Lmap.find al.labels k) ∧
    (∀ (cl : String) (al : AlertmanagerAlert) (n k : String),
      AlertmanagerAlert.is_restricted_label cl k = true →
      Lmap.find ((al.remove_label cl n).1).labels k = Lmap.find al.labels k) ∧
    (∀ (cl : String) (al : AlertmanagerAlert) (n v : String),
      AlertmanagerAlert.is_restricted_label cl n = false →
      Lmap.find (al.add_label cl n v).labels n = some v) := by
  have hb : ∀ (cl : String) (al : AlertmanagerAlert) (n v k : String),
      AlertmanagerAlert.is_restricted_label cl k = true →
      Lmap.find (al.add_label cl n v).labels k = Lmap.find al.labels k := by
    intro cl al n v k hk
    by_cases hn : AlertmanagerAlert.is_restricted_label cl n = true
    · simp [AlertmanagerAlert.add_label, hn]
    · have hnk : k ≠ n := by
        intro hkn
        subst hkn
        exact hn hk
      simp only [AlertmanagerAlert.add_label, hn, if_false, Bool.false_eq_true]
      exact Lmap.find_insert_ne al.labels n v k hnk
  refine ⟨?_, hb, ?_, ?_, ?_⟩
  · intro cl wurl s e n c sev ls ans
    simp only [AlertmanagerAlert.new, Lmap.hasKey]
    refine ⟨?_, ?_, ?_⟩
    · apply Lmap.find_insert_isSome
      apply Lmap.find_insert_isSome
      rw [Lmap.find_insert_self]
      rfl
    · apply Lmap.find_insert_isSome
      rw [Lmap.find_insert_self]
      rfl
    · rw [Lmap.find_insert_self]
      rfl
  · intro cl al ls k hk
    induction ls generalizing al with
    | nil => rfl
    | cons p rest ih =>
      show Lmap.find
        ((al.add_label cl p.1 p.2).add_labels cl rest).labels k = _
      rw [ih (al.add_label cl p.1 p.2), hb cl al p.1 p.2 k hk]
  · intro cl al n k hk
    by_cases hn : AlertmanagerAlert.is_restricted_label cl n = true
    · simp [AlertmanagerAlert.remove_label, hn]
    · have hnk : k ≠ n := by
        intro hkn
        subst hkn
        exact hn hk
      simp only [AlertmanagerAlert.remove_label, hn, if_false,
        Bool.false_eq_true]
      rw [Lmap.find_erase, if_neg hnk]
  · intro cl al n v hn
    simp only [AlertmanagerAlert.add_label, hn, if_false, Bool.false_eq_true]
    exact Lmap.find_insert_self al.labels n v

/-- C9 witness: a restricted add is a no-op while a non-restricted label
from the same rule is still applied. -/
theorem reserved_labels_protected_witness :
    Lmap.find
      ((c1alert.add_label "community" "team" "db").labels) "team" =
        some "db" :=
  reserved_labels_protected.2.2.2.2 "community" c1alert "team" "db"
    (by decide)

/-! ## Claim C7 — merge semantics of generate_alerts -/

/-- The identity tuple of an alert: the fields compared by
`PartialEq for Alert` (everything but `times` and the stored hash). -/
def idOf (a : Alert) : String × Severity × Lmap × String :=
  (a.name, a.severity, a.labels, a.community)

theorem identEq_iff (a b : Alert) : identEq a b = true ↔ idOf a = idOf b := by
  simp [identEq, idOf, Prod.ext_iff]

theorem idOf_set_times (b : Alert) (t : List Int) :
    idOf { b with times := t } = idOf b := rfl

/-- The concatenation of all occurrence timestamps of an alert list. -/
def allTimes : List Alert → List Int
  | [] => []
  | a :: rest => a.times ++ allTimes rest

theorem insertAlert_not_found (acc : List Alert) (a : Alert)
    (h : ∀ b ∈ acc, identEq b a = false) :
    insertAlert acc a = acc ++ [a] := by
  induction acc with
  | nil => rfl
  | cons b rest ih =>
    have hb : identEq b a = false := h b (List.mem_cons_self _ _)
    simp only [insertAlert, hb, Bool.false_eq_true, if_false, List.cons_append,
      List.cons.injEq, true_and]
    exact ih (fun x hx => h x (List.mem_cons_of_mem _ hx))

theorem mem_insertAlert_idOf (acc : List Alert) (a x : Alert)
    (h : x ∈ insertAlert acc a) :
    idOf x ∈ acc.map idOf ∨ idOf x = idOf a := by
  induction acc with
  | nil =>
    simp only [insertAlert, List.mem_singleton] at h
    subst h
    exact Or.inr rfl
  | cons b rest ih =>
    by_cases hb : identEq b a = true
    · simp only [insertAlert, hb, if_true] at h
      rcases List.mem_cons.mp h with h | h
      · subst h
        exact Or.inl (List.mem_cons_self _ _)
      · exact Or.inl (List.mem_cons_of_mem _ (List.mem_map_of_mem idOf h))
    · simp only [insertAlert, hb, Bool.false_eq_true, if_false] at h
      rcases List.mem_cons.mp h with h | h
      · subst h
        exact Or.inl (List.mem_cons_self _ _)
      · rcases ih h with h' | h'
        · exact Or.inl (List.mem_cons_of_mem _ h')
        · exact Or.inr h'

theorem nodup_insertAlert_idOf (acc : List Alert) (a : Alert)
    (h : (acc.map idOf).Nodup) :
    ((insertAlert acc a).map idOf).Nodup := by
  induction acc with
  | nil => simp [insertAlert]
  | cons b rest ih =>
    rw [List.map_cons, List.nodup_cons] at h
    by_cases hb : identEq b a = true
    · simp only [insertAlert, hb, if_true, List.map_cons, idOf_set_times,
        List.nodup_cons]
      exact h
    · simp only [insertAlert, hb, Bool.false_eq_true, if_false, List.map_cons,
        List.nodup_cons]
      refine ⟨?_, ih h.2⟩
      intro hmem
      obtain ⟨x, hx, hxb⟩ := List.mem_map.mp hmem
      rcases mem_insertAlert_idOf rest a x hx with h' | h'
      · exact h.1 (hxb ▸ h')
      · apply hb
        rw [identEq_iff, ← hxb, h']
  
theorem nodup_foldl_insertAlert (l acc : List Alert)
    (h : (acc.map idOf).Nodup) :
    ((List.foldl insertAlert acc l).map idOf).Nodup := by
  induction l generalizing acc with
  | nil => exact h
  | cons a rest ih =>
    exact ih (insertAlert acc a) (nodup_insertAlert_idOf acc a h)

theorem foldl_insertAlert_fixed (l acc : List Alert)
    (h : ((acc ++ l).map idOf).Nodup) :
    List.foldl insertAlert acc l = acc ++ l := by
  induction l generalizing acc with
  | nil => simp
  | cons a rest ih =>
    have hdisj : (acc.map idOf).Disjoint ((a :: rest).map idOf) := by
      rw [List.map_append] at h
      exact List.disjoint_of_nodup_append h
    have hnot : ∀ b ∈ acc, identEq b a = false := by
      intro b hbmem
      by_contra hcon
      rw [Bool.not_eq_false, identEq_iff] at hcon
      exact hdisj (List.mem_map_of_mem idOf hbmem)
        (hcon ▸ List.mem_cons_self (idOf a) (rest.map idOf))
    rw [List.foldl_cons, insertAlert_not_found acc a hnot]
    have h' : (((acc ++ [a]) ++ rest).map idOf).Nodup := by
      rw [List.append_assoc, List.singleton_append]
      exact h
    rw [ih (acc ++ [a]) h', List.append_assoc, List.singleton_append]

theorem allTimes_insertAlert (acc : List Alert) (a : Alert) :
    List.Perm (allTimes (insertAlert acc a)) (allTimes acc ++ a.times) := by
  induction acc with
  | nil =>
    simp [insertAlert, allTimes]
  | cons b rest ih =>
    by_cases hb : identEq b a = true
    · simp only [insertAlert, hb, if_true, allTimes]
      rw [List.append_assoc, List.append_assoc]
      exact List.Perm.append_left b.times List.perm_append_comm
    · simp only [insertAlert, hb, Bool.false_eq_true, if_false, allTimes]
      rw [List.append_assoc]
      exact List.Perm.append_left b.times ih

theorem allTimes_foldl_insertAlert (l acc : List Alert) :
    List.Perm (allTimes (List.foldl insertAlert acc l))
      (allTimes acc ++ allTimes l) := by
  induction l generalizing acc with
  | nil => simp [allTimes]
  | cons a rest ih =>
    rw [List.foldl_cons]
    refine (ih (insertAlert acc a)).trans ?_
    show List.Perm (allTimes (insertAlert acc a) ++ allTimes rest) _
    refine (List.Perm.append_right (allTimes rest)
      (allTimes_insertAlert acc a)).trans ?_
    rw [List.append_assoc]
    exact List.Perm.refl _

theorem mem_foldl_insertAlert_idOf (l acc : List Alert) (x : Alert)
    (h : x ∈ List.foldl insertAlert acc l) :
    idOf x ∈ acc.map idOf ∨ idOf x ∈ l.map idOf := by
  induction l generalizing acc with
  | nil => exact Or.inl (List.mem_map_of_mem idOf h)
  | cons a rest ih =>
    rw [List.foldl_cons] at h
    rcases ih (insertAlert acc a) h with h' | h'
    · obtain ⟨y, hy, hyx⟩ := List.mem_map.mp h'
      rcases mem_insertAlert_idOf acc a y hy with h'' | h''
      · exact Or.inl (hyx ▸ h'')
      · exact Or.inr (by rw [← hyx, h'']; exact List.mem_cons_self _ _)
    · exact Or.inr (List.mem_cons_of_mem _ h')

/-- C7: `generate_alerts` (i) returns a singleton input unchanged,
(ii) is idempotent, (iii) merges two alerts of equal identity into one
alert keeping the first-seen non-time fields with both time sets
concatenated, (iv) loses no timestamp (the multiset of all occurrence
times is preserved), (v) produces pairwise-distinct identities, and
(vi) invents no identity. -/
theorem generate_alerts_merge_spec :
    (∀ a : Alert, generate_alerts [a] = [a]) ∧
    (∀ l : List Alert, generate_alerts (generate_alerts l) =
      generate_alerts l) ∧
    (∀ a b : Alert, identEq a b = true →
      generate_alerts [a, b] = [{ a with times := a.times ++ b.times }]) ∧
    (∀ l : List Alert,
      List.Perm (allTimes (generate_alerts l)) (allTimes l)) ∧
    (∀ l : List Alert, ((generate_alerts l).map idOf).Nodup) ∧
    (∀ l : List Alert, ∀ x ∈ generate_alerts l, idOf x ∈ l.map idOf) := by
  refine ⟨?_, ?_, ?_, ?_, ?_, ?_⟩
  · intro a
    rfl
  · intro l
    have hnd : ((generate_alerts l).map idOf).Nodup :=
      nodup_foldl_insertAlert l [] (by simp)
    have := foldl_insertAlert_fixed (generate_alerts l) []
      (by simpa using hnd)
    simpa [generate_alerts] using this
  · intro a b h
    simp [generate_alerts, insertAlert, h]
  · intro l
    simpa [allTimes] using allTimes_foldl_insertAlert l []
  · intro l
    exact nodup_foldl_insertAlert l [] (by simp)
  · intro l x hx
    rcases mem_foldl_insertAlert_idOf l [] x hx with h | h
    · simp at h
    · exact h

/-- C7 witness: two alerts with equal identity and distinct timestamps
merge into one alert carrying both timestamps. -/
theorem generate_alerts_merge_spec_witness :
    generate_alerts
      [{ severity := .critical, community := "c", name := "n", times := [1],
         labels := [("k", "v")] },
       { severity := .critical, community := "c", name := "n", times := [2],
         labels := [("k", "v")] }] =
      [{ severity := .critical, community := "c", name := "n", times := [1, 2],
         labels := [("k", "v")] }] :=
  generate_alerts_merge_spec.2.2.1
    { severity := .critical, community := "c", name := "n", times := [1],
      labels := [("k", "v")] }
    { severity := .critical, community := "c", name := "n", times := [2],
      labels := [("k", "v")] }
    (by decide)
